import Mathlib

/-!
Shallow embedding of the listing/auction escrow engine of the repository:
`src/contracts/contracts/NFTMarketplace.sol` (contract `NFTMarketplace`) and,
for the claims that reference it, the sequential-counter variant
`contract Marketplace` found in `src/unnamed/part_009`.

Conventions of the embedding:
- `Addr` is `Nat`; address `0` is `address(0)`, and `marketAddr = 1` stands for
  `address(this)` (the marketplace contract itself).
- Solidity `mapping`s are Lean functions; a `bytes32`-keyed mapping whose
  zero value means absent (`listing.id == bytes32(0)` checks in the source)
  is a function into `Option`, with `none` for the all-zero struct.  The
  redundant `id` field stored inside `Listing`/`Auction` in the source exists
  only to implement that absence check, so it is represented by the
  surrounding `Option` and not duplicated inside the struct.
- `bytes32` sale identifiers are `keccak256(nftContract, tokenId, sender,
  timestamp)`; keccak is modelled as the identity on its preimage (`SaleId`),
  so identifier equality is preimage equality (collision resistance).
- Every external call is a step of an `Except Err` computation; a Solidity
  `revert` is `Except.error`, and because the caller keeps its old state on
  `Except.error`, the all-or-nothing rollback of the EVM is structural.
- `msg.sender`, `msg.value` and `block.timestamp` are explicit parameters.
- `uint256` is `Nat`.  Arithmetic that Solidity 0.8 checks and that can
  actually overflow or underflow for some argument of the function (the fee
  multiplication, whose `price` operand is unbounded) gets an explicit
  `Panic` guard against `U256 = 2 ^ 256`.  Additions of ether amounts into
  balances cannot overflow in the EVM (total ether is far below `2 ^ 256`),
  so they stay plain `Nat` additions.
- The EVM account balance of the contract is the field `balance`: it grows by
  `msg.value` on each successful `payable` call and shrinks on outgoing
  value transfers.  `paidOut a` records the cumulative value pushed out to
  address `a` by `call{value: ...}`, making outgoing transfers observable.
- An outgoing `call{value: v}` succeeds only if `v ≤ balance`; on top of
  that the recipient may reject, which is the explicit `recipientAccepts`
  parameter of the operations that perform such a call.
- The OpenZeppelin `nonReentrant` modifier is the `locked` flag, set for the
  duration of the body and cleared at exit; `whenNotPaused` is the `paused`
  flag; `onlyOwner` compares the caller to the stored `owner`.
-/

set_option linter.unusedVariables false

abbrev Addr := Nat

def U256 : Nat := 2 ^ 256

/-- The distinguished address of the marketplace contract (`address(this)`). -/
def marketAddr : Addr := 1

/-- Error categories: the custom errors declared by the two contracts plus the
OpenZeppelin modifier errors (`EnforcedPause`, `ExpectedPause`,
`OwnableUnauthorizedAccount`, `ReentrancyGuardReentrantCall`) and `Panic`
for checked-arithmetic overflow. -/
inductive Err where
  | ListingNotFound
  | AuctionNotFound
  | ListingNotActive
  | AuctionNotActive
  | AuctionEnded
  | AuctionNotEnded
  | NotListingOwner
  | NotAuctionOwner
  | InvalidPrice
  | InvalidDuration
  | BidTooLow
  | NoBids
  | TransferFailed
  | InvalidMarketplaceFee
  | NFTAlreadyListed
  | NFTAlreadyAuctioned
  | NotAuthorized
  | EnforcedPause
  | ExpectedPause
  | OwnableUnauthorized
  | ReentrantCall
  | Panic
deriving DecidableEq

/-- Pointwise update of a one-argument map. -/
def upd {α β : Type} [DecidableEq α] (f : α → β) (a : α) (b : β) : α → β :=
  fun x => if x = a then b else f x

/-- Pointwise update of a two-argument map. -/
def upd2 {α β γ : Type} [DecidableEq α] [DecidableEq β]
    (f : α → β → γ) (a : α) (b : β) (c : γ) : α → β → γ :=
  fun x y => if x = a ∧ y = b then c else f x y

/-- Swap-with-last-and-pop removal of the first occurrence, as in
`_removeFromActiveListings` / `_removeFromActiveAuctions`. -/
def removeSwapPop {α : Type} [DecidableEq α] (a : α) (xs : List α) : List α :=
  match xs.findIdx? (fun x => x = a) with
  | none => xs
  | some i => (xs.set i (xs.getLastD a)).dropLast

namespace NFTMarketplace

def MAX_MARKETPLACE_FEE : Nat := 1000

def MIN_AUCTION_DURATION : Nat := 3600

def MAX_AUCTION_DURATION : Nat := 604800

def AUCTION_EXTENSION_TIME : Nat := 300

/-- Keccak preimage of a `bytes32` listing/auction identifier:
`keccak256(abi.encodePacked(nftContract, tokenId, msg.sender, block.timestamp))`. -/
structure SaleId where
  nft : Addr
  tokenId : Nat
  seller : Addr
  createdAt : Nat
deriving DecidableEq

/-- `struct Listing` (the stored `id` field is the surrounding map key). -/
structure Listing where
  nftContract : Addr
  tokenId : Nat
  seller : Addr
  price : Nat
  isActive : Bool
  createdAt : Nat
deriving DecidableEq

/-- `struct Auction` (the stored `id` field is the surrounding map key). -/
structure Auction where
  nftContract : Addr
  tokenId : Nat
  seller : Addr
  startingBid : Nat
  highestBid : Nat
  highestBidder : Addr
  endTime : Nat
  isActive : Bool
  isFinalized : Bool
  createdAt : Nat
deriving DecidableEq

/-- The full storage of the `NFTMarketplace` contract, together with the EVM
account state the contract's behaviour depends on: its ether `balance`, the
ERC-721 ownership map `owners` backing the external `IERC721` calls, and the
cumulative outbound transfers `paidOut`. -/
structure MState where
  feeBps : Nat
  paused : Bool
  locked : Bool
  owner : Addr
  listings : SaleId → Option Listing
  auctions : SaleId → Option Auction
  nftToListing : Addr → Nat → Option SaleId
  nftToAuction : Addr → Nat → Option SaleId
  proceeds : Addr → Nat
  activeListings : List SaleId
  activeAuctions : List SaleId
  owners : Addr → Nat → Addr
  balance : Nat
  paidOut : Addr → Nat

/-- `IERC721.safeTransferFrom(src, dst, tokenId)`: succeeds exactly when `src`
currently owns the token, otherwise the external call reverts and the engine
treats it as a hard failure. -/
def erc721Transfer (s : MState) (nft : Addr) (tokenId : Nat) (src dst : Addr) :
    Except Err MState :=
  if s.owners nft tokenId = src then
    .ok { s with owners := upd2 s.owners nft tokenId dst }
  else .error .TransferFailed

/-- `listItem(nftContract, tokenId, price)` — source lines 159–201. -/
def listItem (s : MState) (sender now nftContract tokenId price : Nat) :
    Except Err MState :=
  if s.paused then .error .EnforcedPause
  else if s.locked then .error .ReentrantCall
  else if price = 0 then .error .InvalidPrice
  else if (s.nftToListing nftContract tokenId).isSome then .error .NFTAlreadyListed
  else if (s.nftToAuction nftContract tokenId).isSome then .error .NFTAlreadyAuctioned
  else
    match erc721Transfer s nftContract tokenId sender marketAddr with
    | .error e => .error e
    | .ok s1 =>
      let lid : SaleId := ⟨nftContract, tokenId, sender, now⟩
      let l : Listing := ⟨nftContract, tokenId, sender, price, true, now⟩
      .ok { s1 with
        locked := false,
        listings := upd s1.listings lid (some l),
        nftToListing := upd2 s1.nftToListing nftContract tokenId (some lid),
        activeListings := s1.activeListings ++ [lid] }

/-- `cancelListing(listingId)` — source lines 207–239. -/
def cancelListing (s : MState) (sender : Nat) (listingId : SaleId) :
    Except Err MState :=
  if s.paused then .error .EnforcedPause
  else if s.locked then .error .ReentrantCall
  else
    match s.listings listingId with
    | none => .error .ListingNotFound
    | some l =>
      if l.seller ≠ sender ∧ s.owner ≠ sender then .error .NotListingOwner
      else if l.isActive = false then .error .ListingNotActive
      else
        match erc721Transfer s l.nftContract l.tokenId marketAddr l.seller with
        | .error e => .error e
        | .ok s1 =>
          .ok { s1 with
            locked := false,
            listings := upd s1.listings listingId (some { l with isActive := false }),
            activeListings := removeSwapPop listingId s1.activeListings,
            nftToListing := upd2 s1.nftToListing l.nftContract l.tokenId none }

/-- `buyNow(listingId)` (payable) — source lines 245–284.  The fee is computed
before the external NFT transfer, and the listing bookkeeping and the
proceeds credit happen after it, exactly as in the source. -/
def buyNow (s : MState) (sender msgValue : Nat) (listingId : SaleId) :
    Except Err MState :=
  if s.paused then .error .EnforcedPause
  else if s.locked then .error .ReentrantCall
  else
    match s.listings listingId with
    | none => .error .ListingNotFound
    | some l =>
      if l.isActive = false then .error .ListingNotActive
      else if msgValue ≠ l.price then .error .InvalidPrice
      else if U256 ≤ l.price * s.feeBps then .error .Panic
      else if l.price < l.price * s.feeBps / 10000 then .error .Panic
      else
        let fee := l.price * s.feeBps / 10000
        let sellerProceeds := l.price - fee
        let s0 : MState := { s with balance := s.balance + msgValue, locked := true }
        match erc721Transfer s0 l.nftContract l.tokenId marketAddr sender with
        | .error e => .error e
        | .ok s1 =>
          .ok { s1 with
            locked := false,
            listings := upd s1.listings listingId (some { l with isActive := false }),
            activeListings := removeSwapPop listingId s1.activeListings,
            nftToListing := upd2 s1.nftToListing l.nftContract l.tokenId none,
            proceeds := upd s1.proceeds l.seller (s1.proceeds l.seller + sellerProceeds) }

/-- `createAuction(nftContract, tokenId, startingBid, duration)` — source
lines 293–346. -/
def createAuction (s : MState)
    (sender now nftContract tokenId startingBid duration : Nat) :
    Except Err MState :=
  if s.paused then .error .EnforcedPause
  else if s.locked then .error .ReentrantCall
  else if startingBid = 0 then .error .InvalidPrice
  else if duration < MIN_AUCTION_DURATION ∨ MAX_AUCTION_DURATION < duration then
    .error .InvalidDuration
  else if (s.nftToListing nftContract tokenId).isSome then .error .NFTAlreadyListed
  else if (s.nftToAuction nftContract tokenId).isSome then .error .NFTAlreadyAuctioned
  else
    match erc721Transfer s nftContract tokenId sender marketAddr with
    | .error e => .error e
    | .ok s1 =>
      let aid : SaleId := ⟨nftContract, tokenId, sender, now⟩
      let a : Auction :=
        ⟨nftContract, tokenId, sender, startingBid, 0, 0, now + duration, true, false, now⟩
      .ok { s1 with
        locked := false,
        auctions := upd s1.auctions aid (some a),
        nftToAuction := upd2 s1.nftToAuction nftContract tokenId (some aid),
        activeAuctions := s1.activeAuctions ++ [aid] }

/-- `placeBid(auctionId)` (payable) — source lines 352–386.  An outbid
previous highest bidder is refunded by crediting `proceeds` only. -/
def placeBid (s : MState) (sender now msgValue : Nat) (auctionId : SaleId) :
    Except Err MState :=
  if s.paused then .error .EnforcedPause
  else if s.locked then .error .ReentrantCall
  else
    match s.auctions auctionId with
    | none => .error .AuctionNotFound
    | some a =>
      if a.isActive = false then .error .AuctionNotActive
      else if a.endTime ≤ now then .error .AuctionEnded
      else if msgValue ≤ a.highestBid then .error .BidTooLow
      else
        let s0 : MState := { s with balance := s.balance + msgValue }
        let s1 : MState :=
          if a.highestBidder ≠ 0 then
            { s0 with proceeds := upd s0.proceeds a.highestBidder (s0.proceeds a.highestBidder + a.highestBid) }
          else s0
        let newEnd :=
          if a.endTime - now < AUCTION_EXTENSION_TIME then now + AUCTION_EXTENSION_TIME
          else a.endTime
        .ok { s1 with
          locked := false,
          auctions := upd s1.auctions auctionId
            (some { a with highestBid := msgValue, highestBidder := sender, endTime := newEnd }) }

/-- `endAuction(auctionId)` — source lines 392–447.  Note the `isFinalized`
check reverts `AuctionNotActive()` in the source (line 408), and there is no
`AlreadyFinalized` error declared anywhere in the contract. -/
def endAuction (s : MState) (sender now : Nat) (auctionId : SaleId) :
    Except Err MState :=
  if s.paused then .error .EnforcedPause
  else if s.locked then .error .ReentrantCall
  else
    match s.auctions auctionId with
    | none => .error .AuctionNotFound
    | some a =>
      if a.isActive = false then .error .AuctionNotActive
      else if now < a.endTime then .error .AuctionNotEnded
      else if a.isFinalized then .error .AuctionNotActive
      else
        let base : MState := { s with
          locked := false,
          auctions := upd s.auctions auctionId
            (some { a with isFinalized := true, isActive := false }),
          activeAuctions := removeSwapPop auctionId s.activeAuctions,
          nftToAuction := upd2 s.nftToAuction a.nftContract a.tokenId none }
        if a.highestBidder ≠ 0 then
          if U256 ≤ a.highestBid * s.feeBps then .error .Panic
          else if a.highestBid < a.highestBid * s.feeBps / 10000 then .error .Panic
          else
            let fee := a.highestBid * s.feeBps / 10000
            let sellerProceeds := a.highestBid - fee
            match erc721Transfer base a.nftContract a.tokenId marketAddr a.highestBidder with
            | .error e => .error e
            | .ok s1 =>
              .ok { s1 with proceeds := upd s1.proceeds a.seller (s1.proceeds a.seller + sellerProceeds) }
        else
          erc721Transfer base a.nftContract a.tokenId marketAddr a.seller

/-- `withdrawProceeds()` — source lines 452–466.  The only modifier is
`nonReentrant`: there is no `whenNotPaused` on this function.  The balance is
zeroed before the external `call{value: amount}`; if that call fails (either
because the contract's ether balance cannot cover `amount`, or because the
recipient rejects, the `recipientAccepts` parameter) the whole call reverts,
which in the embedding is `Except.error` with the pre-state retained. -/
def withdrawProceeds (s : MState) (sender : Addr) (recipientAccepts : Bool) :
    Except Err MState :=
  if s.locked then .error .ReentrantCall
  else
    let amount := s.proceeds sender
    if amount = 0 then .error .NoBids
    else if amount ≤ s.balance ∧ recipientAccepts then
      .ok { s with
        locked := false,
        proceeds := upd s.proceeds sender 0,
        balance := s.balance - amount,
        paidOut := upd s.paidOut sender (s.paidOut sender + amount) }
    else .error .TransferFailed

/-- `setMarketplaceFee(newFeePercentage)` — source lines 472–479 (`onlyOwner`
only; no pause gate, no reentrancy guard). -/
def setMarketplaceFee (s : MState) (sender newFeePercentage : Nat) :
    Except Err MState :=
  if sender ≠ s.owner then .error .OwnableUnauthorized
  else if MAX_MARKETPLACE_FEE < newFeePercentage then .error .InvalidMarketplaceFee
  else .ok { s with feeBps := newFeePercentage }

/-- `pause()` — source lines 484–486; OpenZeppelin `_pause` itself carries
`whenNotPaused`. -/
def pause (s : MState) (sender : Addr) : Except Err MState :=
  if sender ≠ s.owner then .error .OwnableUnauthorized
  else if s.paused then .error .EnforcedPause
  else .ok { s with paused := true }

/-- `unpause()` — source lines 491–493; OpenZeppelin `_unpause` itself carries
`whenPaused`. -/
def unpause (s : MState) (sender : Addr) : Except Err MState :=
  if sender ≠ s.owner then .error .OwnableUnauthorized
  else if s.paused = false then .error .ExpectedPause
  else .ok { s with paused := false }

/-- `withdrawFees()` — source lines 498–504 (`onlyOwner` only; no pause gate,
no reentrancy guard).  It transfers `address(this).balance` — the ENTIRE
contract balance — to the owner and does not touch the `proceeds` map. -/
def withdrawFees (s : MState) (sender : Addr) (recipientAccepts : Bool) :
    Except Err MState :=
  if sender ≠ s.owner then .error .OwnableUnauthorized
  else if recipientAccepts then
    .ok { s with
      balance := 0,
      paidOut := upd s.paidOut s.owner (s.paidOut s.owner + s.balance) }
  else .error .TransferFailed

/-- One external invocation of the engine facade: every externally callable
mutating entry point of the contract, with its caller, call value, timestamp
and arguments. -/
inductive Op where
  | listItemOp (sender now nftContract tokenId price : Nat)
  | cancelListingOp (sender : Nat) (listingId : SaleId)
  | buyNowOp (sender msgValue : Nat) (listingId : SaleId)
  | createAuctionOp (sender now nftContract tokenId startingBid duration : Nat)
  | placeBidOp (sender now msgValue : Nat) (auctionId : SaleId)
  | endAuctionOp (sender now : Nat) (auctionId : SaleId)
  | withdrawProceedsOp (sender : Nat) (recipientAccepts : Bool)
  | setMarketplaceFeeOp (sender newFeePercentage : Nat)
  | pauseOp (sender : Nat)
  | unpauseOp (sender : Nat)
  | withdrawFeesOp (sender : Nat) (recipientAccepts : Bool)

/-- Dispatch one external call to the corresponding contract function. -/
def step (op : Op) (s : MState) : Except Err MState :=
  match op with
  | .listItemOp sender now nftContract tokenId price =>
      listItem s sender now nftContract tokenId price
  | .cancelListingOp sender listingId => cancelListing s sender listingId
  | .buyNowOp sender msgValue listingId => buyNow s sender msgValue listingId
  | .createAuctionOp sender now nftContract tokenId startingBid duration =>
      createAuction s sender now nftContract tokenId startingBid duration
  | .placeBidOp sender now msgValue auctionId => placeBid s sender now msgValue auctionId
  | .endAuctionOp sender now auctionId => endAuction s sender now auctionId
  | .withdrawProceedsOp sender recipientAccepts => withdrawProceeds s sender recipientAccepts
  | .setMarketplaceFeeOp sender newFeePercentage => setMarketplaceFee s sender newFeePercentage
  | .pauseOp sender => pause s sender
  | .unpauseOp sender => unpause s sender
  | .withdrawFeesOp sender recipientAccepts => withdrawFees s sender recipientAccepts

/-- Run a sequence of external calls, aborting on the first revert. -/
def run (ops : List Op) (s : MState) : Except Err MState :=
  match ops with
  | [] => .ok s
  | op :: rest =>
    match step op s with
    | .error e => .error e
    | .ok s' => run rest s'

/-- The state right after the constructor ran: empty storage, fee rate as
configured (the constructor reverts when it exceeds `MAX_MARKETPLACE_FEE`),
zero ether balance, a given external NFT ownership map. -/
def initState (owner0 : Addr) (owners0 : Addr → Nat → Addr) (feeBps0 : Nat) : MState :=
  { feeBps := feeBps0
    paused := false
    locked := false
    owner := owner0
    listings := fun _ => none
    auctions := fun _ => none
    nftToListing := fun _ _ => none
    nftToAuction := fun _ _ => none
    proceeds := fun _ => 0
    activeListings := []
    activeAuctions := []
    owners := owners0
    balance := 0
    paidOut := fun _ => 0 }

/-- States reachable from a freshly constructed marketplace through successful
external calls. -/
inductive Reachable : MState → Prop where
  | init (owner0 : Addr) (owners0 : Addr → Nat → Addr) (feeBps0 : Nat) :
      feeBps0 ≤ MAX_MARKETPLACE_FEE → Reachable (initState owner0 owners0 feeBps0)
  | next (s : MState) (op : Op) (s' : MState) :
      Reachable s → step op s = .ok s' → Reachable s'

/-- The entry points protected by the `nonReentrant` modifier in the source
(all mutating entry points except the four `onlyOwner` administrative ones). -/
def guardedOp : Op → Bool
  | .listItemOp _ _ _ _ _ => true
  | .cancelListingOp _ _ => true
  | .buyNowOp _ _ _ => true
  | .createAuctionOp _ _ _ _ _ _ => true
  | .placeBidOp _ _ _ _ => true
  | .endAuctionOp _ _ _ => true
  | .withdrawProceedsOp _ _ => true
  | .setMarketplaceFeeOp _ _ => false
  | .pauseOp _ => false
  | .unpauseOp _ => false
  | .withdrawFeesOp _ _ => false

/-- An adversarial callback: during an external interaction the called
contract attempts a list of reentrant calls into the engine, keeping the
state of each attempt that succeeds and swallowing (try/catch) each attempt
that reverts, then returns control. -/
def advCalls (adv : List Op) (s : MState) : MState :=
  match adv with
  | [] => s
  | op :: rest =>
    advCalls rest (match step op s with | .ok s' => s' | .error _ => s)

/-- `buyNow` with the external `safeTransferFrom` expanded to invoke an
adversarial `onERC721Received` callback: between the ERC-721 transfer and
the listing bookkeeping the buyer runs `adv` reentrant calls against the
engine with the reentrancy lock held, exactly at the point where the source
hands control to the token contract (line 265). -/
def buyNowAdv (adv : List Op) (s : MState) (sender msgValue : Nat) (listingId : SaleId) :
    Except Err MState :=
  if s.paused then .error .EnforcedPause
  else if s.locked then .error .ReentrantCall
  else
    match s.listings listingId with
    | none => .error .ListingNotFound
    | some l =>
      if l.isActive = false then .error .ListingNotActive
      else if msgValue ≠ l.price then .error .InvalidPrice
      else if U256 ≤ l.price * s.feeBps then .error .Panic
      else if l.price < l.price * s.feeBps / 10000 then .error .Panic
      else
        let fee := l.price * s.feeBps / 10000
        let sellerProceeds := l.price - fee
        let s0 : MState := { s with balance := s.balance + msgValue, locked := true }
        match erc721Transfer s0 l.nftContract l.tokenId marketAddr sender with
        | .error e => .error e
        | .ok s1 =>
          let mid := advCalls adv s1
          .ok { mid with
            locked := false,
            listings := upd mid.listings listingId (some { l with isActive := false }),
            activeListings := removeSwapPop listingId mid.activeListings,
            nftToListing := upd2 mid.nftToListing l.nftContract l.tokenId none,
            proceeds := upd mid.proceeds l.seller (mid.proceeds l.seller + sellerProceeds) }

/-- `withdrawProceeds` with the external `call{value: amount}` expanded to an
adversarial recipient: the ledger entry is already zeroed and the value
already moved when the recipient runs `adv` reentrant calls against the
engine with the reentrancy lock held, then returns success. -/
def withdrawProceedsAdv (adv : List Op) (s : MState) (sender : Addr) :
    Except Err MState :=
  if s.locked then .error .ReentrantCall
  else
    let amount := s.proceeds sender
    if amount = 0 then .error .NoBids
    else if amount ≤ s.balance then
      let mid := advCalls adv { s with
        locked := true,
        proceeds := upd s.proceeds sender 0,
        balance := s.balance - amount,
        paidOut := upd s.paidOut sender (s.paidOut sender + amount) }
      .ok { mid with locked := false }
    else .error .TransferFailed

/-- Seller proceeds recorded for `a`, when the call chain succeeded. -/
def okProceeds (r : Except Err MState) (a : Addr) : Option Nat :=
  match r with
  | .ok s => some (s.proceeds a)
  | .error _ => none

/-- Contract ether balance, when the call chain succeeded. -/
def okBalance (r : Except Err MState) : Option Nat :=
  match r with
  | .ok s => some s.balance
  | .error _ => none

/-- Cumulative value pushed out to `a`, when the call chain succeeded. -/
def okPaidOut (r : Except Err MState) (a : Addr) : Option Nat :=
  match r with
  | .ok s => some (s.paidOut a)
  | .error _ => none

/-- Current owner of a token, when the call chain succeeded. -/
def okOwnerOf (r : Except Err MState) (nft tokenId : Nat) : Option Addr :=
  match r with
  | .ok s => some (s.owners nft tokenId)
  | .error _ => none

/-- Pause flag, when the call chain succeeded. -/
def okPaused (r : Except Err MState) : Option Bool :=
  match r with
  | .ok s => some s.paused
  | .error _ => none

/-- `isFinalized` of a stored auction, when the call chain succeeded. -/
def okAuctionFinalized (r : Except Err MState) (aid : SaleId) : Option Bool :=
  match r with
  | .ok s => (s.auctions aid).map (fun a => a.isFinalized)
  | .error _ => none

/-- Continue a call chain with one more external call. -/
def andThen (r : Except Err MState) (op : Op) : Except Err MState :=
  match r with
  | .ok s => step op s
  | .error e => .error e

/-- Extract the state of a successful call chain (defaulting to `d`). -/
def okState (r : Except Err MState) (d : MState) : MState :=
  match r with
  | .ok s => s
  | .error _ => d

/-- Concrete external NFT ownership for the scenarios: account 2 owns tokens
7 and 8 of collection 5. -/
def owners0 : Addr → Nat → Addr :=
  fun n t => if n = 5 ∧ (t = 7 ∨ t = 8) then 2 else 0

/-- Concrete genesis: contract owner is account 10, fee rate 250 bps. -/
def s0 : MState := initState 10 owners0 250

/-- The id of a sale of token (5, 7) created by account 2 at time 0. -/
def id57 : SaleId := ⟨5, 7, 2, 0⟩

end NFTMarketplace

namespace Marketplace

/-!
The sequential-counter variant `contract Marketplace` from
`src/unnamed/part_009` (lines 1–458 of that file), embedded only as far as
the claims need it: listing creation and `placeBid`.  Its listing ids come
from an OpenZeppelin counter starting at 0, it keys everything by `uint256`
id with `listing.id == 0` as the absence check, and — unlike
`NFTMarketplace` — its `placeBid` refunds the previous highest bidder by a
direct `call{value: ...}` push transfer (lines 209–215). -/

def MIN_AUCTION_DURATION : Nat := 3600

def MAX_AUCTION_DURATION : Nat := 604800

def AUCTION_EXTENSION_TIME : Nat := 300

inductive ListingType where
  | FixedPrice
  | Auction
deriving DecidableEq

inductive ListingStatus where
  | Active
  | Sold
  | Cancelled
deriving DecidableEq

/-- `struct Listing` of the `Marketplace` variant (interface `IMarketplace`);
the `id` field is stored because the source uses `listing.id == 0` as its
existence check even though ids are also the map keys. -/
structure Listing where
  id : Nat
  nftContract : Addr
  tokenId : Nat
  seller : Addr
  price : Nat
  currentBid : Nat
  currentBidder : Addr
  listingType : ListingType
  status : ListingStatus
  endTime : Nat
  createdAt : Nat
deriving DecidableEq

/-- Storage of the `Marketplace` variant plus the EVM account state it
depends on, in the same style as `NFTMarketplace.MState`. -/
structure MState where
  feeBps : Nat
  paused : Bool
  locked : Bool
  owner : Addr
  nextListingId : Nat
  listings : Nat → Option Listing
  tokenToListing : Addr → Nat → Nat
  owners : Addr → Nat → Addr
  balance : Nat
  paidOut : Addr → Nat

/-- `IERC721.safeTransferFrom` against this variant's state. -/
def erc721Transfer (s : MState) (nft : Addr) (tokenId : Nat) (src dst : Addr) :
    Except Err MState :=
  if s.owners nft tokenId = src then
    .ok { s with owners := upd2 s.owners nft tokenId dst }
  else .error .TransferFailed

/-- An outgoing `call{value: amount}` whose recipient accepts: moves value
out of the contract, failing if the balance cannot cover it. -/
def pushValue (s : MState) (dst : Addr) (amount : Nat) : Except Err MState :=
  if amount ≤ s.balance then
    .ok { s with
      balance := s.balance - amount,
      paidOut := upd s.paidOut dst (s.paidOut dst + amount) }
  else .error .TransferFailed

/-- Internal `_createListing` — part_009 lines 361–398.  Note the counter
starts at 0, so the first listing is stored under id 0. -/
def createListingInternal (s : MState) (sender now nftContract tokenId price : Nat)
    (listingType : ListingType) (endTime : Nat) : Except Err MState :=
  if s.tokenToListing nftContract tokenId ≠ 0 then .error .NotAuthorized
  else
    match erc721Transfer s nftContract tokenId sender marketAddr with
    | .error e => .error e
    | .ok s1 =>
      let listingId := s1.nextListingId
      let l : Listing :=
        ⟨listingId, nftContract, tokenId, sender, price, 0, 0, listingType,
          ListingStatus.Active, endTime, now⟩
      .ok { s1 with
        locked := false,
        nextListingId := listingId + 1,
        listings := upd s1.listings listingId (some l),
        tokenToListing := upd2 s1.tokenToListing nftContract tokenId listingId }

/-- `createFixedPriceListing` — part_009 lines 119–129. -/
def createFixedPriceListing (s : MState) (sender now nftContract tokenId price : Nat) :
    Except Err MState :=
  if s.paused then .error .EnforcedPause
  else if s.locked then .error .ReentrantCall
  else if price = 0 then .error .InvalidPrice
  else createListingInternal s sender now nftContract tokenId price ListingType.FixedPrice 0

/-- `createAuctionListing` — part_009 lines 138–154. -/
def createAuctionListing (s : MState)
    (sender now nftContract tokenId startingPrice duration : Nat) :
    Except Err MState :=
  if s.paused then .error .EnforcedPause
  else if s.locked then .error .ReentrantCall
  else if startingPrice = 0 then .error .InvalidPrice
  else if duration < MIN_AUCTION_DURATION ∨ MAX_AUCTION_DURATION < duration then
    .error .InvalidDuration
  else
    createListingInternal s sender now nftContract tokenId startingPrice
      ListingType.Auction (now + duration)

/-- `placeBid(listingId)` of the `Marketplace` variant — part_009 lines
186–227.  The previous highest bidder is refunded by a DIRECT
`call{value: listing.currentBid}` push transfer inside the bid call. -/
def placeBid (s : MState) (sender now msgValue : Nat) (listingId : Nat) :
    Except Err MState :=
  if s.paused then .error .EnforcedPause
  else if s.locked then .error .ReentrantCall
  else
    match s.listings listingId with
    | none => .error .ListingNotFound
    | some l =>
      if l.id = 0 then .error .ListingNotFound
      else if l.listingType ≠ ListingType.Auction then .error .NotAuthorized
      else if l.status ≠ ListingStatus.Active then .error .ListingNotActive
      else if l.endTime ≤ now then .error .AuctionEnded
      else if msgValue ≤ l.currentBid then .error .BidTooLow
      else
        let s0 : MState := { s with balance := s.balance + msgValue }
        match (if l.currentBidder ≠ 0 then pushValue s0 l.currentBidder l.currentBid else .ok s0) with
        | .error e => .error e
        | .ok s1 =>
          let newEnd :=
            if l.endTime - now < AUCTION_EXTENSION_TIME then now + AUCTION_EXTENSION_TIME
            else l.endTime
          .ok { s1 with
            locked := false,
            listings := upd s1.listings listingId
              (some { l with currentBid := msgValue, currentBidder := sender, endTime := newEnd }) }

/-- The state right after this variant's constructor ran. -/
def initState (owner0 : Addr) (owners0 : Addr → Nat → Addr) (feeBps0 : Nat) : MState :=
  { feeBps := feeBps0
    paused := false
    locked := false
    owner := owner0
    nextListingId := 0
    listings := fun _ => none
    tokenToListing := fun _ _ => 0
    owners := owners0
    balance := 0
    paidOut := fun _ => 0 }

/-- Cumulative value pushed out to `a`, when the call chain succeeded. -/
def okPaidOut (r : Except Err MState) (a : Addr) : Option Nat :=
  match r with
  | .ok s => some (s.paidOut a)
  | .error _ => none

/-- Contract ether balance, when the call chain succeeded. -/
def okBalance (r : Except Err MState) : Option Nat :=
  match r with
  | .ok s => some s.balance
  | .error _ => none

/-- Concrete external NFT ownership: account 2 owns tokens 7 and 8 of
collection 5. -/
def owners0 : Addr → Nat → Addr :=
  fun n t => if n = 5 ∧ (t = 7 ∨ t = 8) then 2 else 0

/-- A concrete run of the `Marketplace` variant up to the moment a second
bid is about to arrive: a throwaway fixed-price listing (which takes counter
id 0), an auction listing for token (5, 7) with starting price 50 and
duration 3600 (counter id 1), and a first bid of 60 by account 4. -/
def bidScenarioBefore : Except Err MState :=
  createFixedPriceListing (initState 10 owners0 250) 2 0 5 8 10 >>= fun s1 =>
  createAuctionListing s1 2 0 5 7 50 3600 >>= fun s2 =>
  placeBid s2 4 10 60 1

/-- The same run after account 5 outbids with 70. -/
def bidScenario : Except Err MState :=
  bidScenarioBefore >>= fun s3 => placeBid s3 5 20 70 1

end Marketplace

namespace NFTMarketplace

/-- Scenario A of the spec: list token (5, 7) at price 100, then account 3
buys it for exactly 100. -/
def scenarioATrace : List Op := [Op.listItemOp 2 0 5 7 100, Op.buyNowOp 3 100 id57]

/-- Scenario A followed by the owner sweeping the whole contract balance
with `withdrawFees`. -/
def conservationTrace : List Op := scenarioATrace ++ [Op.withdrawFeesOp 10 true]

/-- Auction on token (5, 7), one bid of 60 by account 4, then finalization
by an unrelated account 3 after the end time. -/
def endTwiceTrace : List Op :=
  [Op.createAuctionOp 2 0 5 7 50 3600, Op.placeBidOp 4 10 60 id57, Op.endAuctionOp 3 4000 id57]

/-- Scenario A, then the owner pauses, then the seller withdraws proceeds
while the marketplace is paused. -/
def pausedWithdrawTrace : List Op :=
  scenarioATrace ++ [Op.pauseOp 10, Op.withdrawProceedsOp 2 true]

/-- The concrete state after Scenario A: seller 2 is owed 98, the contract
holds 100 (98 escrow plus 2 accrued fees). -/
def sAfterSale : MState := okState (run scenarioATrace s0) s0

/-- `withdrawProceeds` by the seller whose recipient reentrantly calls the
unguarded `withdrawFees` as the owner while the lock is held. -/
def reentrantSweep : Except Err MState :=
  withdrawProceedsAdv [Op.withdrawFeesOp 10 true] sAfterSale 2

/-- The concrete state after `[listItemOp 2 0 5 7 100]`: an active listing
for token (5, 7). -/
def sListed : MState := okState (run [Op.listItemOp 2 0 5 7 100] s0) s0

/-- A freshly created auction on token (5, 7): starting bid 50, no bids,
ends at 3600. -/
def wAuction : Auction := ⟨5, 7, 2, 50, 0, 0, 3600, true, false, 0⟩

/-- The same auction after a first bid of 60 by account 4. -/
def wAuctionBid : Auction := { wAuction with highestBid := 60, highestBidder := 4 }

/-- A state holding `wAuction` with the NFT in marketplace custody. -/
def sAuc : MState :=
  { s0 with
    auctions := upd s0.auctions id57 (some wAuction),
    nftToAuction := upd2 s0.nftToAuction 5 7 (some id57),
    owners := upd2 s0.owners 5 7 marketAddr }

/-- A state holding `wAuctionBid` with the NFT in marketplace custody and
the bid value in the contract balance. -/
def sAucBid : MState := { sAuc with auctions := upd s0.auctions id57 (some wAuctionBid), balance := 60 }

/-- The state after finalizing `sAucBid` at time 4000. -/
def sEnded : MState := okState (endAuction sAucBid 3 4000 id57) s0

/-- The state after buying the `sListed` listing. -/
def sBought : MState := okState (buyNow sListed 3 100 id57) s0

/-- `sAfterSale` with the pause flag set by the owner. -/
def sPausedSale : MState := okState (step (Op.pauseOp 10) sAfterSale) s0

/-- The state after account 5 outbids account 4 with 70 on `sAucBid`. -/
def sOutbid : MState := okState (placeBid sAucBid 5 20 70 id57) s0

/-- The state after the seller pulls their 98 out of `sAfterSale`. -/
def sWithdrawn : MState := okState (withdrawProceeds sAfterSale 2 true) s0

/-- The genesis state with the execution lock held, i.e. the state any
reentrant callee observes mid-call. -/
def sLocked : MState := { s0 with locked := true }

/-- The inductive invariant behind cross-registry exclusivity: every active
listing (resp. auction) is indexed by `nftToListing` (resp. `nftToAuction`)
under its asset reference, and no asset reference is indexed in both maps at
once. -/
def ExclInv (s : MState) : Prop :=
  (∀ id l, s.listings id = some l → l.isActive = true →
    s.nftToListing l.nftContract l.tokenId = some id) ∧
  (∀ id a, s.auctions id = some a → a.isActive = true →
    s.nftToAuction a.nftContract a.tokenId = some id) ∧
  (∀ nft tid, s.nftToListing nft tid = none ∨ s.nftToAuction nft tid = none)

end NFTMarketplace

theorem upd_same {α β : Type} [DecidableEq α] (f : α → β) (a : α) (b : β) :
    upd f a b a = b := by
  simp [upd]

theorem upd_ne {α β : Type} [DecidableEq α] (f : α → β) (a : α) (b : β) {x : α}
    (h : x ≠ a) : upd f a b x = f x := by
  simp [upd, h]

theorem upd2_same {α β γ : Type} [DecidableEq α] [DecidableEq β]
    (f : α → β → γ) (a : α) (b : β) (c : γ) : upd2 f a b c a b = c := by
  simp [upd2]

theorem upd2_ne {α β γ : Type} [DecidableEq α] [DecidableEq β]
    (f : α → β → γ) (a : α) (b : β) (c : γ) {x : α} {y : β}
    (h : ¬(x = a ∧ y = b)) : upd2 f a b c x y = f x y := by
  simp only [upd2, if_neg h]

namespace NFTMarketplace

theorem erc721Transfer_ok {s : MState} {nft tid : Nat} {src dst : Addr} {s1 : MState}
    (h : erc721Transfer s nft tid src dst = .ok s1) :
    s.owners nft tid = src ∧ s1 = { s with owners := upd2 s.owners nft tid dst } := by
  unfold erc721Transfer at h
  split at h
  next hc =>
    injection h with h
    exact ⟨hc, h.symm⟩
  next hc => exact Except.noConfusion h

/-- Success inversion for `listItem`: every guard passed and the final state
is the explicit record the function builds. -/
theorem listItem_ok {s : MState} {sender now nft tid price : Nat} {s' : MState}
    (h : listItem s sender now nft tid price = .ok s') :
    s.paused = false ∧ s.locked = false ∧ price ≠ 0 ∧
    s.nftToListing nft tid = none ∧ s.nftToAuction nft tid = none ∧
    s.owners nft tid = sender ∧
    s' = { s with
      locked := false,
      owners := upd2 s.owners nft tid marketAddr,
      listings := upd s.listings ⟨nft, tid, sender, now⟩
        (some ⟨nft, tid, sender, price, true, now⟩),
      nftToListing := upd2 s.nftToListing nft tid (some ⟨nft, tid, sender, now⟩),
      activeListings := s.activeListings ++ [⟨nft, tid, sender, now⟩] } := by
  unfold listItem at h
  repeat' split at h
  all_goals try exact Except.noConfusion h
  rename_i s1 heq
  obtain ⟨hw, rfl⟩ := erc721Transfer_ok heq
  injection h with h
  subst h
  refine ⟨?_, ?_, ?_, ?_, ?_, hw, rfl⟩ <;> simp_all

/-- Success inversion for `cancelListing`. -/
theorem cancelListing_ok {s : MState} {sender : Nat} {lid : SaleId} {s' : MState}
    (h : cancelListing s sender lid = .ok s') :
    s.paused = false ∧ s.locked = false ∧
    ∃ l, s.listings lid = some l ∧ l.isActive = true ∧
      (l.seller = sender ∨ s.owner = sender) ∧
      s.owners l.nftContract l.tokenId = marketAddr ∧
      s' = { s with
        locked := false,
        owners := upd2 s.owners l.nftContract l.tokenId l.seller,
        listings := upd s.listings lid (some { l with isActive := false }),
        activeListings := removeSwapPop lid s.activeListings,
        nftToListing := upd2 s.nftToListing l.nftContract l.tokenId none } := by
  unfold cancelListing at h
  repeat' split at h
  all_goals try exact Except.noConfusion h
  obtain ⟨hw, rfl⟩ := erc721Transfer_ok (by assumption)
  injection h with h
  subst h
  exact ⟨by simp_all, by simp_all, _, by assumption, by simp_all, by tauto, hw, rfl⟩

/-- Success inversion for `buyNow`. -/
theorem buyNow_ok {s : MState} {sender v : Nat} {lid : SaleId} {s' : MState}
    (h : buyNow s sender v lid = .ok s') :
    s.paused = false ∧ s.locked = false ∧
    ∃ l, s.listings lid = some l ∧ l.isActive = true ∧ v = l.price ∧
      l.price * s.feeBps < U256 ∧ l.price * s.feeBps / 10000 ≤ l.price ∧
      s.owners l.nftContract l.tokenId = marketAddr ∧
      s' = { s with
        balance := s.balance + v,
        locked := false,
        owners := upd2 s.owners l.nftContract l.tokenId sender,
        listings := upd s.listings lid (some { l with isActive := false }),
        activeListings := removeSwapPop lid s.activeListings,
        nftToListing := upd2 s.nftToListing l.nftContract l.tokenId none,
        proceeds := upd s.proceeds l.seller
          (s.proceeds l.seller + (l.price - l.price * s.feeBps / 10000)) } := by
  unfold buyNow at h
  repeat' split at h
  all_goals try exact Except.noConfusion h
  dsimp only at h
  repeat' split at h
  all_goals try exact Except.noConfusion h
  obtain ⟨hw, rfl⟩ := erc721Transfer_ok (by assumption)
  injection h with h
  subst h
  exact ⟨by simp_all, by simp_all, _, by assumption, by simp_all, by simp_all,
    by simp_all [Nat.not_le, Nat.lt_iff_add_one_le], by simp_all [Nat.not_lt], hw, rfl⟩

/-- Success inversion for `createAuction`. -/
theorem createAuction_ok {s : MState}
    {sender now nft tid startingBid duration : Nat} {s' : MState}
    (h : createAuction s sender now nft tid startingBid duration = .ok s') :
    s.paused = false ∧ s.locked = false ∧ startingBid ≠ 0 ∧
    MIN_AUCTION_DURATION ≤ duration ∧ duration ≤ MAX_AUCTION_DURATION ∧
    s.nftToListing nft tid = none ∧ s.nftToAuction nft tid = none ∧
    s.owners nft tid = sender ∧
    s' = { s with
      locked := false,
      owners := upd2 s.owners nft tid marketAddr,
      auctions := upd s.auctions ⟨nft, tid, sender, now⟩
        (some ⟨nft, tid, sender, startingBid, 0, 0, now + duration, true, false, now⟩),
      nftToAuction := upd2 s.nftToAuction nft tid (some ⟨nft, tid, sender, now⟩),
      activeAuctions := s.activeAuctions ++ [⟨nft, tid, sender, now⟩] } := by
  unfold createAuction at h
  repeat' split at h
  all_goals try exact Except.noConfusion h
  rename_i hdur s1 heq
  obtain ⟨hw, rfl⟩ := erc721Transfer_ok heq
  injection h with h
  subst h
  refine ⟨?_, ?_, ?_, ?_, ?_, ?_, ?_, hw, rfl⟩ <;> simp_all

/-- Success inversion for `placeBid`. -/
theorem placeBid_ok {s : MState} {sender now v : Nat} {aid : SaleId} {s' : MState}
    (h : placeBid s sender now v aid = .ok s') :
    s.paused = false ∧ s.locked = false ∧
    ∃ a, s.auctions aid = some a ∧ a.isActive = true ∧ now < a.endTime ∧
      a.highestBid < v ∧
      s' = { s with
        balance := s.balance + v,
        locked := false,
        proceeds := if a.highestBidder ≠ 0 then
            upd s.proceeds a.highestBidder (s.proceeds a.highestBidder + a.highestBid)
          else s.proceeds,
        auctions := upd s.auctions aid (some { a with
          highestBid := v, highestBidder := sender,
          endTime := if a.endTime - now < AUCTION_EXTENSION_TIME then
              now + AUCTION_EXTENSION_TIME
            else a.endTime }) } := by
  unfold placeBid at h
  repeat' split at h
  all_goals try exact Except.noConfusion h
  all_goals try dsimp only at h
  all_goals injection h with h
  all_goals subst h
  all_goals
    exact ⟨by simp_all, by simp_all, _, by assumption, by simp_all,
      by simp_all [Nat.not_le], by simp_all [Nat.not_le],
      by (try simp_all); all_goals rw [if_neg (by omega)]⟩

/-- Success inversion for `endAuction`. -/
theorem endAuction_ok {s : MState} {sender now : Nat} {aid : SaleId} {s' : MState}
    (h : endAuction s sender now aid = .ok s') :
    s.paused = false ∧ s.locked = false ∧
    ∃ a, s.auctions aid = some a ∧ a.isActive = true ∧ a.isFinalized = false ∧
      a.endTime ≤ now ∧ s.owners a.nftContract a.tokenId = marketAddr ∧
      ((a.highestBidder ≠ 0 ∧
        s' = { s with
          locked := false,
          auctions := upd s.auctions aid (some { a with isFinalized := true, isActive := false }),
          activeAuctions := removeSwapPop aid s.activeAuctions,
          nftToAuction := upd2 s.nftToAuction a.nftContract a.tokenId none,
          owners := upd2 s.owners a.nftContract a.tokenId a.highestBidder,
          proceeds := upd s.proceeds a.seller
            (s.proceeds a.seller + (a.highestBid - a.highestBid * s.feeBps / 10000)) }) ∨
       (a.highestBidder = 0 ∧
        s' = { s with
          locked := false,
          auctions := upd s.auctions aid (some { a with isFinalized := true, isActive := false }),
          activeAuctions := removeSwapPop aid s.activeAuctions,
          nftToAuction := upd2 s.nftToAuction a.nftContract a.tokenId none,
          owners := upd2 s.owners a.nftContract a.tokenId a.seller })) := by
  unfold endAuction at h
  repeat' split at h
  all_goals try exact Except.noConfusion h
  all_goals try dsimp only at h
  all_goals try (repeat' split at h)
  all_goals try exact Except.noConfusion h
  all_goals
    first
    | (obtain ⟨hw, rfl⟩ := erc721Transfer_ok h
       exact ⟨by simp_all, by simp_all, _, by assumption, by simp_all, by simp_all,
         by simp_all [Nat.not_lt], hw, Or.inr ⟨by simp_all, rfl⟩⟩)
    | (obtain ⟨hw, rfl⟩ := erc721Transfer_ok (by assumption)
       injection h with h
       subst h
       exact ⟨by simp_all, by simp_all, _, by assumption, by simp_all, by simp_all,
         by simp_all [Nat.not_lt], hw, Or.inl ⟨by simp_all, rfl⟩⟩)

/-- Success inversion for `withdrawProceeds`. -/
theorem withdrawProceeds_ok {s : MState} {sender : Addr} {r : Bool} {s' : MState}
    (h : withdrawProceeds s sender r = .ok s') :
    s.locked = false ∧ s.proceeds sender ≠ 0 ∧ s.proceeds sender ≤ s.balance ∧ r = true ∧
    s' = { s with
      locked := false,
      proceeds := upd s.proceeds sender 0,
      balance := s.balance - s.proceeds sender,
      paidOut := upd s.paidOut sender (s.paidOut sender + s.proceeds sender) } := by
  unfold withdrawProceeds at h
  dsimp only at h
  repeat' split at h
  all_goals try exact Except.noConfusion h
  injection h with h
  subst h
  exact ⟨by simp_all, by assumption, by simp_all, by simp_all, rfl⟩

/-- Success inversion for `setMarketplaceFee`. -/
theorem setMarketplaceFee_ok {s : MState} {sender nf : Nat} {s' : MState}
    (h : setMarketplaceFee s sender nf = .ok s') :
    sender = s.owner ∧ nf ≤ MAX_MARKETPLACE_FEE ∧ s' = { s with feeBps := nf } := by
  unfold setMarketplaceFee at h
  repeat' split at h
  all_goals try exact Except.noConfusion h
  injection h with h
  subst h
  exact ⟨by simp_all, by simp_all [Nat.not_lt], rfl⟩

/-- Success inversion for `pause`. -/
theorem pause_ok {s : MState} {sender : Addr} {s' : MState}
    (h : pause s sender = .ok s') :
    sender = s.owner ∧ s.paused = false ∧ s' = { s with paused := true } := by
  unfold pause at h
  repeat' split at h
  all_goals try exact Except.noConfusion h
  injection h with h
  subst h
  exact ⟨by simp_all, by simp_all, rfl⟩

/-- Success inversion for `unpause`. -/
theorem unpause_ok {s : MState} {sender : Addr} {s' : MState}
    (h : unpause s sender = .ok s') :
    sender = s.owner ∧ s.paused = true ∧ s' = { s with paused := false } := by
  unfold unpause at h
  repeat' split at h
  all_goals try exact Except.noConfusion h
  injection h with h
  subst h
  exact ⟨by simp_all, by simp_all, rfl⟩

/-- Success inversion for `withdrawFees`. -/
theorem withdrawFees_ok {s : MState} {sender : Addr} {r : Bool} {s' : MState}
    (h : withdrawFees s sender r = .ok s') :
    sender = s.owner ∧ r = true ∧
    s' = { s with
      balance := 0,
      paidOut := upd s.paidOut s.owner (s.paidOut s.owner + s.balance) } := by
  unfold withdrawFees at h
  repeat' split at h
  all_goals try exact Except.noConfusion h
  injection h with h
  subst h
  exact ⟨by simp_all, by simp_all, rfl⟩

/-- `endAuction` on a stored but deactivated auction reverts
`AuctionNotActive`, whoever calls it and whenever. -/
theorem endAuction_inactive {s : MState} {sender now : Nat} {aid : SaleId} {a : Auction}
    (hp : s.paused = false) (hk : s.locked = false)
    (ha : s.auctions aid = some a) (hI : a.isActive = false) :
    endAuction s sender now aid = .error .AuctionNotActive := by
  simp [endAuction, hp, hk, ha, hI]

/-- Every `nonReentrant` entry point invoked while the execution lock is held
reverts (with `ReentrantCall`, or `EnforcedPause` when the pause flag was
additionally flipped, since `whenNotPaused` is checked first). -/
theorem step_locked_fails {s : MState} (hk : s.locked = true) :
    ∀ op : Op, guardedOp op = true → ∃ e, step op s = .error e := by
  intro op hg
  cases op
  all_goals simp only [guardedOp] at hg
  all_goals try exact Bool.noConfusion hg
  all_goals simp only [step]
  case listItemOp a b c d e =>
    by_cases hp : s.paused = true
    · exact ⟨.EnforcedPause, by simp [listItem, hp]⟩
    · exact ⟨.ReentrantCall, by simp [listItem, hp, hk]⟩
  case cancelListingOp a b =>
    by_cases hp : s.paused = true
    · exact ⟨.EnforcedPause, by simp [cancelListing, hp]⟩
    · exact ⟨.ReentrantCall, by simp [cancelListing, hp, hk]⟩
  case buyNowOp a b c =>
    by_cases hp : s.paused = true
    · exact ⟨.EnforcedPause, by simp [buyNow, hp]⟩
    · exact ⟨.ReentrantCall, by simp [buyNow, hp, hk]⟩
  case createAuctionOp a b c d e f =>
    by_cases hp : s.paused = true
    · exact ⟨.EnforcedPause, by simp [createAuction, hp]⟩
    · exact ⟨.ReentrantCall, by simp [createAuction, hp, hk]⟩
  case placeBidOp a b c d =>
    by_cases hp : s.paused = true
    · exact ⟨.EnforcedPause, by simp [placeBid, hp]⟩
    · exact ⟨.ReentrantCall, by simp [placeBid, hp, hk]⟩
  case endAuctionOp a b c =>
    by_cases hp : s.paused = true
    · exact ⟨.EnforcedPause, by simp [endAuction, hp]⟩
    · exact ⟨.ReentrantCall, by simp [endAuction, hp, hk]⟩
  case withdrawProceedsOp a b =>
    exact ⟨.ReentrantCall, by simp [withdrawProceeds, hk]⟩

/-- While the lock is held, any sequence of reentrant calls through guarded
entry points leaves the state untouched: each nested call reverts. -/
theorem advCalls_locked {s : MState} (hk : s.locked = true) :
    ∀ adv : List Op, (∀ op ∈ adv, guardedOp op = true) → advCalls adv s = s := by
  intro adv
  induction adv with
  | nil => intro _; rfl
  | cons op rest ih =>
    intro hadv
    obtain ⟨e, he⟩ := step_locked_fails hk op (hadv op (List.mem_cons_self op rest))
    simp only [advCalls, he]
    exact ih (fun op' h' => hadv op' (List.mem_cons_of_mem op h'))

/-- A buyer whose `onERC721Received` callback attempts any reentrant calls
through guarded entry points changes nothing: `buyNow` ends in exactly the
state it would have reached with an honest buyer. -/
theorem buyNowAdv_eq {adv : List Op} (hadv : ∀ op ∈ adv, guardedOp op = true)
    (s : MState) (sender v : Nat) (lid : SaleId) :
    buyNowAdv adv s sender v lid = buyNow s sender v lid := by
  unfold buyNowAdv buyNow
  repeat' split
  all_goals try rfl
  all_goals dsimp only
  all_goals try (repeat' split)
  all_goals try rfl
  all_goals obtain ⟨hw, h1⟩ := erc721Transfer_ok (by assumption)
  all_goals subst h1
  all_goals rw [advCalls_locked rfl adv hadv]

/-- A withdrawal recipient whose `receive` callback attempts any reentrant
calls through guarded entry points changes nothing: `withdrawProceeds` ends
in exactly the state an honest recipient produces. -/
theorem withdrawProceedsAdv_eq {adv : List Op} (hadv : ∀ op ∈ adv, guardedOp op = true)
    (s : MState) (sender : Addr) :
    withdrawProceedsAdv adv s sender = withdrawProceeds s sender true := by
  unfold withdrawProceedsAdv withdrawProceeds
  dsimp only
  repeat' split
  all_goals try rfl
  all_goals try (exfalso; tauto)
  all_goals rw [advCalls_locked rfl adv hadv]

/-- Every successful external call preserves the exclusivity invariant. -/
theorem step_preserves_ExclInv {s s' : MState} {op : Op}
    (hinv : ExclInv s) (h : step op s = .ok s') : ExclInv s' := by
  obtain ⟨inv1, inv2, inv3⟩ := hinv
  cases op with
  | listItemOp sender now nft tid price =>
    obtain ⟨hp, hk, hpr, hnl, hna, hw, rfl⟩ := listItem_ok h
    refine ⟨?_, ?_, ?_⟩ <;> dsimp only
    · intro id l hl hact
      by_cases hid : id = (⟨nft, tid, sender, now⟩ : SaleId)
      · subst hid
        rw [upd_same] at hl
        injection hl with hl
        subst hl
        exact upd2_same _ _ _ _
      · rw [upd_ne _ _ _ hid] at hl
        have hold := inv1 id l hl hact
        by_cases hasset : l.nftContract = nft ∧ l.tokenId = tid
        · exfalso
          rw [hasset.1, hasset.2, hnl] at hold
          exact Option.noConfusion hold
        · rw [upd2_ne _ _ _ _ hasset]
          exact hold
    · exact inv2
    · intro nft' tid'
      by_cases hasset : nft' = nft ∧ tid' = tid
      · obtain ⟨h1, h2⟩ := hasset
        subst h1
        subst h2
        exact Or.inr hna
      · rw [upd2_ne _ _ _ _ hasset]
        exact inv3 nft' tid'
  | cancelListingOp sender lid =>
    obtain ⟨hp, hk, l, hl, hact, hauth, hw, rfl⟩ := cancelListing_ok h
    refine ⟨?_, ?_, ?_⟩ <;> dsimp only
    · intro id l' hl' hact'
      by_cases hid : id = lid
      · subst hid
        rw [upd_same] at hl'
        injection hl' with hl'
        subst hl'
        exact Bool.noConfusion hact'
      · rw [upd_ne _ _ _ hid] at hl'
        have hold := inv1 id l' hl' hact'
        by_cases hasset : l'.nftContract = l.nftContract ∧ l'.tokenId = l.tokenId
        · exfalso
          have hlid := inv1 lid l hl hact
          rw [hasset.1, hasset.2, hlid] at hold
          injection hold with hold
          exact hid hold.symm
        · rw [upd2_ne _ _ _ _ hasset]
          exact hold
    · exact inv2
    · intro nft' tid'
      by_cases hasset : nft' = l.nftContract ∧ tid' = l.tokenId
      · obtain ⟨h1, h2⟩ := hasset
        subst h1
        subst h2
        exact Or.inl (upd2_same _ _ _ _)
      · rw [upd2_ne _ _ _ _ hasset]
        exact inv3 nft' tid'
  | buyNowOp sender v lid =>
    obtain ⟨hp, hk, l, hl, hact, hveq, hovf, hunf, hw, rfl⟩ := buyNow_ok h
    refine ⟨?_, ?_, ?_⟩ <;> dsimp only
    · intro id l' hl' hact'
      by_cases hid : id = lid
      · subst hid
        rw [upd_same] at hl'
        injection hl' with hl'
        subst hl'
        exact Bool.noConfusion hact'
      · rw [upd_ne _ _ _ hid] at hl'
        have hold := inv1 id l' hl' hact'
        by_cases hasset : l'.nftContract = l.nftContract ∧ l'.tokenId = l.tokenId
        · exfalso
          have hlid := inv1 lid l hl hact
          rw [hasset.1, hasset.2, hlid] at hold
          injection hold with hold
          exact hid hold.symm
        · rw [upd2_ne _ _ _ _ hasset]
          exact hold
    · exact inv2
    · intro nft' tid'
      by_cases hasset : nft' = l.nftContract ∧ tid' = l.tokenId
      · obtain ⟨h1, h2⟩ := hasset
        subst h1
        subst h2
        exact Or.inl (upd2_same _ _ _ _)
      · rw [upd2_ne _ _ _ _ hasset]
        exact inv3 nft' tid'
  | createAuctionOp sender now nft tid startingBid duration =>
    obtain ⟨hp, hk, hpr, hdmin, hdmax, hnl, hna, hw, rfl⟩ := createAuction_ok h
    refine ⟨?_, ?_, ?_⟩ <;> dsimp only
    · exact inv1
    · intro id a ha hact
      by_cases hid : id = (⟨nft, tid, sender, now⟩ : SaleId)
      · subst hid
        rw [upd_same] at ha
        injection ha with ha
        subst ha
        exact upd2_same _ _ _ _
      · rw [upd_ne _ _ _ hid] at ha
        have hold := inv2 id a ha hact
        by_cases hasset : a.nftContract = nft ∧ a.tokenId = tid
        · exfalso
          rw [hasset.1, hasset.2, hna] at hold
          exact Option.noConfusion hold
        · rw [upd2_ne _ _ _ _ hasset]
          exact hold
    · intro nft' tid'
      by_cases hasset : nft' = nft ∧ tid' = tid
      · obtain ⟨h1, h2⟩ := hasset
        subst h1
        subst h2
        exact Or.inl hnl
      · rw [upd2_ne _ _ _ _ hasset]
        exact inv3 nft' tid'
  | placeBidOp sender now v aid =>
    obtain ⟨hp, hk, a, ha, hact, hend, hlt, rfl⟩ := placeBid_ok h
    refine ⟨?_, ?_, ?_⟩ <;> dsimp only
    · exact inv1
    · intro id a' ha' hact'
      by_cases hid : id = aid
      · subst hid
        rw [upd_same] at ha'
        injection ha' with ha'
        subst ha'
        exact inv2 _ a ha hact
      · rw [upd_ne _ _ _ hid] at ha'
        exact inv2 id a' ha' hact'
    · exact inv3
  | endAuctionOp sender now aid =>
    obtain ⟨hp, hk, a, ha, hact, hfin, hend, hw, hbr⟩ := @endAuction_ok s sender now aid s' h
    have hmain : ∀ s2 : MState,
        s2.listings = s.listings →
        s2.auctions = upd s.auctions aid (some { a with isFinalized := true, isActive := false }) →
        s2.nftToListing = s.nftToListing →
        s2.nftToAuction = upd2 s.nftToAuction a.nftContract a.tokenId none →
        ExclInv s2 := by
      intro s2 e1 e2 e3 e4
      refine ⟨?_, ?_, ?_⟩ <;> dsimp only
      · intro id l' hl' hact'
        rw [e1] at hl'
        rw [e3]
        exact inv1 id l' hl' hact'
      · intro id a' ha' hact'
        rw [e2] at ha'
        rw [e4]
        by_cases hid : id = aid
        · subst hid
          rw [upd_same] at ha'
          injection ha' with ha'
          subst ha'
          exact Bool.noConfusion hact'
        · rw [upd_ne _ _ _ hid] at ha'
          have hold := inv2 id a' ha' hact'
          by_cases hasset : a'.nftContract = a.nftContract ∧ a'.tokenId = a.tokenId
          · exfalso
            have haid := inv2 aid a ha hact
            rw [hasset.1, hasset.2, haid] at hold
            injection hold with hold
            exact hid hold.symm
          · rw [upd2_ne _ _ _ _ hasset]
            exact hold
      · intro nft' tid'
        rw [e3, e4]
        by_cases hasset : nft' = a.nftContract ∧ tid' = a.tokenId
        · obtain ⟨h1, h2⟩ := hasset
          subst h1
          subst h2
          exact Or.inr (upd2_same _ _ _ _)
        · rw [upd2_ne _ _ _ _ hasset]
          exact inv3 nft' tid'
    obtain ⟨hb, rfl⟩ | ⟨hb, rfl⟩ := hbr
    · exact hmain _ rfl rfl rfl rfl
    · exact hmain _ rfl rfl rfl rfl
  | withdrawProceedsOp sender r =>
    obtain ⟨hk, hnz, hle, hr, rfl⟩ := withdrawProceeds_ok h
    exact ⟨inv1, inv2, inv3⟩
  | setMarketplaceFeeOp sender nf =>
    obtain ⟨ho, hle, rfl⟩ := setMarketplaceFee_ok h
    exact ⟨inv1, inv2, inv3⟩
  | pauseOp sender =>
    obtain ⟨ho, hp, rfl⟩ := pause_ok h
    exact ⟨inv1, inv2, inv3⟩
  | unpauseOp sender =>
    obtain ⟨ho, hp, rfl⟩ := unpause_ok h
    exact ⟨inv1, inv2, inv3⟩
  | withdrawFeesOp sender r =>
    obtain ⟨ho, hr, rfl⟩ := withdrawFees_ok h
    exact ⟨inv1, inv2, inv3⟩

/-- Every reachable state satisfies the exclusivity invariant. -/
theorem exclInv_reachable {s : MState} (h : Reachable s) : ExclInv s := by
  induction h with
  | init ow own0 fee hfee =>
    refine ⟨?_, ?_, ?_⟩
    · intro id l hl hact
      exact Option.noConfusion hl
    · intro id a ha hact
      exact Option.noConfusion ha
    · intro nft tid
      exact Or.inl rfl
  | next s op s' hr hs ih => exact step_preserves_ExclInv ih hs

end NFTMarketplace

namespace NFTMarketplace

/-- C1: value conservation is violated by the code — in the reachable state
after Scenario A the seller's escrow balance is 98 and the contract holds
100 (98 escrowed plus 2 accrued fees), but `withdrawFees` pays the ENTIRE
contract balance of 100 to the owner while leaving the `proceeds` ledger
untouched; afterwards the sum of escrow balances (98) exceeds the value the
engine still holds (0), and the seller's own withdrawal necessarily reverts
`TransferFailed`.  This contradicts the invariant that no operation pays
out value still owed to escrow accounts. -/
theorem C1_withdrawFees_pays_out_escrowed_value :
    okProceeds (run conservationTrace s0) 2 = some 98 ∧
    okBalance (run conservationTrace s0) = some 0 ∧
    okPaidOut (run conservationTrace s0) 10 = some 100 ∧
    andThen (run conservationTrace s0) (Op.withdrawProceedsOp 2 true) =
      .error .TransferFailed :=
  ⟨rfl, rfl, rfl, rfl⟩

/-- C2 counterexample: after one successful `endAuction`, a second call on
the same auction reverts `AuctionNotActive`, not `AlreadyFinalized` — the
contract declares no `AlreadyFinalized` error anywhere, and even its
explicit `isFinalized` check (source line 407) reverts `AuctionNotActive`. -/
theorem C2_counterexample_second_end_is_AuctionNotActive :
    okAuctionFinalized (run endTwiceTrace s0) id57 = some true ∧
    andThen (run endTwiceTrace s0) (Op.endAuctionOp 3 4001 id57) =
      .error .AuctionNotActive :=
  ⟨rfl, rfl⟩

/-- C2 (amended): exactly-once finalization holds, but the second `end` call
fails with `AuctionNotActive` rather than `AlreadyFinalized`: a successful
`endAuction` finds the auction unfinalized, flips `isFinalized` false→true
while deactivating it, and every later `endAuction` on the same id (any
caller, any time) reverts `AuctionNotActive`. -/
theorem C2_end_exactly_once {s : MState} {sender now : Nat} {aid : SaleId} {s' : MState}
    (h : endAuction s sender now aid = .ok s') :
    (∃ a, s.auctions aid = some a ∧ a.isFinalized = false ∧ a.isActive = true) ∧
    (∃ a', s'.auctions aid = some a' ∧ a'.isFinalized = true ∧ a'.isActive = false) ∧
    ∀ sender' now', endAuction s' sender' now' aid = .error .AuctionNotActive := by
  obtain ⟨hp, hk, a, ha, hact, hfin, hend, hw, hbr⟩ := endAuction_ok h
  have key : ∀ s2 : MState, s2.paused = false → s2.locked = false →
      s2.auctions aid = some { a with isFinalized := true, isActive := false } →
      (∃ a', s2.auctions aid = some a' ∧ a'.isFinalized = true ∧ a'.isActive = false) ∧
      ∀ sender' now', endAuction s2 sender' now' aid = .error .AuctionNotActive := by
    intro s2 h1 h2 h3
    refine ⟨⟨_, h3, rfl, rfl⟩, ?_⟩
    intro sender' now'
    exact endAuction_inactive h1 h2 h3 rfl
  obtain ⟨hb, rfl⟩ | ⟨hb, rfl⟩ := hbr
  · exact ⟨⟨a, ha, hfin, hact⟩, key _ hp rfl (upd_same _ _ _)⟩
  · exact ⟨⟨a, ha, hfin, hact⟩, key _ hp rfl (upd_same _ _ _)⟩

/-- C2 witness: the amended theorem applied to the concrete auction ended at
time 4000 — the repeated call reverts `AuctionNotActive`. -/
theorem C2_end_exactly_once_witness :
    endAuction sEnded 9 9999 id57 = .error .AuctionNotActive :=
  (C2_end_exactly_once (show endAuction sAucBid 3 4000 id57 = .ok sEnded from rfl)).2.2 9 9999

/-- C3 counterexample: Scenario A (price 100, fee rate 250 bps) credits the
seller 98, not 97 as the claim states — the fee is
`100 * 250 / 10000 = 2` rounded down, so the seller receives `100 - 2 = 98`
(the claim's own general formula contradicts its concrete figure); custody
does move to the buyer. -/
theorem C3_counterexample_scenarioA_credits_98 :
    okProceeds (run scenarioATrace s0) 2 = some 98 ∧
    okProceeds (run scenarioATrace s0) 2 ≠ some 97 ∧
    okOwnerOf (run scenarioATrace s0) 5 7 = some 3 :=
  ⟨rfl, by decide, rfl⟩

/-- C3 (amended): buying the listing of Scenario A credits the seller 98;
in general a successful `buyNow` pays exactly the tendered price, credits
the seller `price - price * feeRateBps / 10000` (integer division, rounded
down), the fee and the seller proceeds sum exactly to the price, and
custody of the asset moves to the buyer. -/
theorem C3_buy_settlement_split {s : MState} {sender v : Nat} {lid : SaleId} {s' : MState}
    (h : buyNow s sender v lid = .ok s') :
    ∃ l, s.listings lid = some l ∧ v = l.price ∧
      s'.proceeds l.seller = s.proceeds l.seller + (l.price - l.price * s.feeBps / 10000) ∧
      l.price * s.feeBps / 10000 + (l.price - l.price * s.feeBps / 10000) = l.price ∧
      s'.owners l.nftContract l.tokenId = sender := by
  obtain ⟨hp, hk, l, hl, hact, hveq, hovf, hunf, hw, rfl⟩ := buyNow_ok h
  refine ⟨l, hl, hveq, ?_, by omega, ?_⟩
  · dsimp only
    rw [upd_same]
  · dsimp only
    rw [upd2_same]

/-- C3 witness: the amended settlement statement applied to the concrete
Scenario A purchase. -/
theorem C3_buy_settlement_split_witness :
    ∃ l, sListed.listings id57 = some l ∧ 100 = l.price ∧
      sBought.proceeds l.seller =
        sListed.proceeds l.seller + (l.price - l.price * sListed.feeBps / 10000) ∧
      l.price * sListed.feeBps / 10000 + (l.price - l.price * sListed.feeBps / 10000) = l.price ∧
      sBought.owners l.nftContract l.tokenId = 3 :=
  C3_buy_settlement_split (show buyNow sListed 3 100 id57 = .ok sBought from rfl)

end NFTMarketplace

namespace NFTMarketplace

/-- C4 counterexample: `withdrawProceeds` is not pause-gated.  After
Scenario A the owner pauses; the seller's `withdrawProceeds` then SUCCEEDS
while the pause flag is set (the final state is still paused, the escrow
balance is zeroed and 98 was paid out), instead of failing with
`EnforcedPause` as the claim requires. -/
theorem C4_counterexample_withdraw_succeeds_while_paused :
    okPaused (run pausedWithdrawTrace s0) = some true ∧
    okProceeds (run pausedWithdrawTrace s0) 2 = some 0 ∧
    okPaidOut (run pausedWithdrawTrace s0) 2 = some 98 :=
  ⟨rfl, rfl, rfl⟩

/-- C4 (amended): while the pause flag is set, the six trading entry points
(`listItem`, `cancelListing`, `buyNow`, `createAuction`, `placeBid`,
`endAuction`) all fail with `EnforcedPause` and leave the state unchanged
(a revert returns no state), but `withdrawProceeds` is not pause-gated: it
never returns `EnforcedPause`, and it succeeds while paused whenever its
own conditions are met. -/
theorem C4_pause_gates_trading_but_not_withdraw {s : MState} (hp : s.paused = true) :
    (∀ sender now nft tid price, listItem s sender now nft tid price = .error .EnforcedPause) ∧
    (∀ sender lid, cancelListing s sender lid = .error .EnforcedPause) ∧
    (∀ sender v lid, buyNow s sender v lid = .error .EnforcedPause) ∧
    (∀ sender now nft tid sb d, createAuction s sender now nft tid sb d = .error .EnforcedPause) ∧
    (∀ sender now v aid, placeBid s sender now v aid = .error .EnforcedPause) ∧
    (∀ sender now aid, endAuction s sender now aid = .error .EnforcedPause) ∧
    (∀ sender r, withdrawProceeds s sender r ≠ .error .EnforcedPause) ∧
    (∀ sender, s.locked = false → s.proceeds sender ≠ 0 → s.proceeds sender ≤ s.balance →
      ∃ s', withdrawProceeds s sender true = .ok s') := by
  refine ⟨?_, ?_, ?_, ?_, ?_, ?_, ?_, ?_⟩
  · intro sender now nft tid price
    simp [listItem, hp]
  · intro sender lid
    simp [cancelListing, hp]
  · intro sender v lid
    simp [buyNow, hp]
  · intro sender now nft tid sb d
    simp [createAuction, hp]
  · intro sender now v aid
    simp [placeBid, hp]
  · intro sender now aid
    simp [endAuction, hp]
  · intro sender r hcontra
    unfold withdrawProceeds at hcontra
    dsimp only at hcontra
    repeat' split at hcontra
    all_goals simp at hcontra
  · intro sender hk hnz hle
    refine ⟨{ s with
      locked := false,
      proceeds := upd s.proceeds sender 0,
      balance := s.balance - s.proceeds sender,
      paidOut := upd s.paidOut sender (s.paidOut sender + s.proceeds sender) }, ?_⟩
    unfold withdrawProceeds
    dsimp only
    rw [if_neg (by simp [hk]), if_neg hnz, if_pos ⟨hle, rfl⟩]

/-- C4 witness: at the concrete paused post-sale state, listing is blocked by
`EnforcedPause` while the seller's withdrawal succeeds. -/
theorem C4_pause_witness :
    listItem sPausedSale 2 5 5 9 100 = .error .EnforcedPause ∧
    ∃ s', withdrawProceeds sPausedSale 2 true = .ok s' := by
  have T := C4_pause_gates_trading_but_not_withdraw (show sPausedSale.paused = true from rfl)
  exact ⟨T.1 2 5 5 9 100, T.2.2.2.2.2.2.2 2 rfl (by decide) (by decide)⟩

/-- C5 counterexample: in the `Marketplace` variant of the engine
(src/unnamed/part_009, one of the claim's cited sources), a successful
outbid pushes the refund DIRECTLY to the previous highest bidder inside the
bid call: before the second bid nothing has been paid out to bidder 4, and
the bid of 70 pays 60 straight out to bidder 4 by `call{value: ...}` —
there is no escrow ledger in that contract at all. -/
theorem C5_counterexample_variant_pushes_refund :
    Marketplace.okPaidOut Marketplace.bidScenarioBefore 4 = some 0 ∧
    Marketplace.okPaidOut Marketplace.bidScenario 4 = some 60 ∧
    Marketplace.okBalance Marketplace.bidScenario = some 70 :=
  ⟨rfl, rfl, rfl⟩

/-- C5 (amended): in `NFTMarketplace` (the escrow engine the spec
describes), a successful bid over an existing highest bidder credits that
bidder's prior bid to their escrow balance and performs no outgoing value
transfer during the call: the cumulative paid-out map is untouched and the
contract balance grows by the full new bid; the `Marketplace` variant in
part_009 instead push-transfers the refund directly. -/
theorem C5_placeBid_refund_by_ledger {s : MState} {sender now v : Nat} {aid : SaleId}
    {a : Auction} {s' : MState} (ha : s.auctions aid = some a)
    (hb : a.highestBidder ≠ 0) (h : placeBid s sender now v aid = .ok s') :
    s'.proceeds a.highestBidder = s.proceeds a.highestBidder + a.highestBid ∧
    s'.paidOut = s.paidOut ∧
    s'.balance = s.balance + v := by
  obtain ⟨hp, hk, a2, ha2, hact, hend, hlt, rfl⟩ := placeBid_ok h
  rw [ha] at ha2
  injection ha2 with ha2
  subst ha2
  refine ⟨?_, rfl, rfl⟩
  dsimp only
  rw [if_pos hb, upd_same]

/-- C5 witness: the amended refund-by-ledger statement at the concrete
outbid of Scenario B. -/
theorem C5_refund_by_ledger_witness :
    sOutbid.proceeds 4 = sAucBid.proceeds 4 + 60 ∧
    sOutbid.paidOut = sAucBid.paidOut ∧
    sOutbid.balance = sAucBid.balance + 70 :=
  C5_placeBid_refund_by_ledger rfl (by decide)
    (show placeBid sAucBid 5 20 70 id57 = .ok sOutbid from rfl)

end NFTMarketplace

namespace NFTMarketplace

/-- C7: monotonic bidding — every successful bid on an auction strictly
exceeds the stored highest bid and becomes the new highest bid (so the
highest bid strictly increases across successful bids), and any bid less
than or equal to the current highest bid fails with `BidTooLow` when it
reaches that check (auction live and not expired, marketplace not paused or
locked). -/
theorem C7_monotonic_bidding {s : MState} {aid : SaleId} {a : Auction}
    (ha : s.auctions aid = some a) :
    (∀ sender now v s', placeBid s sender now v aid = .ok s' →
      a.highestBid < v ∧ ∃ a', s'.auctions aid = some a' ∧ a'.highestBid = v) ∧
    (∀ sender now v, s.paused = false → s.locked = false → a.isActive = true →
      now < a.endTime → v ≤ a.highestBid →
      placeBid s sender now v aid = .error .BidTooLow) := by
  constructor
  · intro sender now v s' h
    obtain ⟨hp, hk, a2, ha2, hact, hend, hlt, rfl⟩ := placeBid_ok h
    rw [ha] at ha2
    injection ha2 with ha2
    subst ha2
    refine ⟨hlt,
      { a with highestBid := v, highestBidder := sender, endTime := if a.endTime - now < AUCTION_EXTENSION_TIME then now + AUCTION_EXTENSION_TIME else a.endTime },
      ?_, rfl⟩
    dsimp only
    rw [upd_same]
  · intro sender now v hp hk hact hend hv
    simp [placeBid, hp, hk, ha, hact, hv, Nat.not_le.mpr hend]

/-- C7 witness: on the concrete auction with highest bid 60, a bid of 70
succeeds and becomes the new highest, and a bid of 55 reverts `BidTooLow`. -/
theorem C7_monotonic_bidding_witness :
    (wAuctionBid.highestBid < 70 ∧
      ∃ a', sOutbid.auctions id57 = some a' ∧ a'.highestBid = 70) ∧
    placeBid sAucBid 5 20 55 id57 = .error .BidTooLow := by
  have T := C7_monotonic_bidding (show sAucBid.auctions id57 = some wAuctionBid from rfl)
  exact ⟨T.1 5 20 70 sOutbid rfl, T.2 5 20 55 rfl rfl rfl (by decide) (by decide)⟩

/-- C8: withdraw semantics — with the lock free, `withdrawProceeds` fails
with `NoBids` (the `NothingToWithdraw` category) exactly when the caller's
escrow balance is zero; on success it pays out exactly the prior balance,
zeroes the ledger entry, and an immediately repeated call fails with
`NoBids`; and when the external transfer cannot succeed (insufficient
contract balance or rejecting recipient) the whole call aborts with
`TransferFailed` — an abort returns no state, so the ledger zeroing is
rolled back and the balance stays intact structurally. -/
theorem C8_withdraw_semantics {s : MState} {sender : Addr} (hk : s.locked = false) :
    (∀ r, withdrawProceeds s sender r = .error .NoBids ↔ s.proceeds sender = 0) ∧
    (∀ r s', withdrawProceeds s sender r = .ok s' →
      s'.proceeds sender = 0 ∧
      s'.paidOut sender = s.paidOut sender + s.proceeds sender ∧
      s'.balance = s.balance - s.proceeds sender ∧
      ∀ r', withdrawProceeds s' sender r' = .error .NoBids) ∧
    (∀ r, s.proceeds sender ≠ 0 → ¬(s.proceeds sender ≤ s.balance ∧ r = true) →
      withdrawProceeds s sender r = .error .TransferFailed) := by
  refine ⟨?_, ?_, ?_⟩
  · intro r
    constructor
    · intro he
      by_contra hnz
      unfold withdrawProceeds at he
      dsimp only at he
      rw [if_neg (by simp [hk]), if_neg hnz] at he
      split at he
      · exact Except.noConfusion he
      · injection he with he
        exact Err.noConfusion he
    · intro hz
      simp [withdrawProceeds, hk, hz]
  · intro r s' h
    obtain ⟨hk2, hnz, hle, hr, rfl⟩ := withdrawProceeds_ok h
    refine ⟨upd_same _ _ _, upd_same _ _ _, rfl, ?_⟩
    intro r'
    simp [withdrawProceeds, upd_same]
  · intro r hnz hbad
    unfold withdrawProceeds
    dsimp only
    rw [if_neg (by simp [hk]), if_neg hnz, if_neg hbad]

/-- C8 witness: Scenario D on the concrete post-sale state — the iff at a
nonzero balance, the successful withdrawal zeroing the ledger and paying 98,
and the immediately repeated call reverting `NoBids`. -/
theorem C8_withdraw_semantics_witness :
    (withdrawProceeds sAfterSale 2 true = .error .NoBids ↔ sAfterSale.proceeds 2 = 0) ∧
    sWithdrawn.proceeds 2 = 0 ∧
    sWithdrawn.paidOut 2 = sAfterSale.paidOut 2 + sAfterSale.proceeds 2 ∧
    withdrawProceeds sWithdrawn 2 true = .error .NoBids := by
  have T := @C8_withdraw_semantics sAfterSale 2 rfl
  have hok := T.2.1 true sWithdrawn rfl
  exact ⟨T.1 true, hok.1, hok.2.1, hok.2.2.2 true⟩

/-- C10: the recorded starting bid is never enforced — on a fresh auction
(no bids, so the stored highest bid is 0) any positive bid strictly below
the starting bid is accepted, because `placeBid` only requires the value to
exceed the current highest bid; the winning price can therefore undercut
the starting bid. -/
theorem C10_starting_bid_not_enforced {s : MState} {aid : SaleId} {a : Auction}
    {sender now v : Nat}
    (hp : s.paused = false) (hk : s.locked = false)
    (ha : s.auctions aid = some a) (hact : a.isActive = true)
    (hfresh : a.highestBid = 0) (hend : now < a.endTime)
    (hpos : 0 < v) (hlow : v < a.startingBid) :
    ∃ s' a', placeBid s sender now v aid = .ok s' ∧
      s'.auctions aid = some a' ∧ a'.highestBid = v ∧
      a'.highestBid < a.startingBid := by
  cases hres : placeBid s sender now v aid with
  | error e =>
    simp [placeBid, hp, hk, ha, hact, hfresh, Nat.not_le.mpr hend,
      Nat.not_le.mpr hpos] at hres
  | ok s1 =>
    obtain ⟨hp2, hk2, a2, ha2, hact2, hend2, hlt2, rfl⟩ := placeBid_ok hres
    rw [ha] at ha2
    injection ha2 with ha2
    subst ha2
    refine ⟨_,
      { a with highestBid := v, highestBidder := sender, endTime := if a.endTime - now < AUCTION_EXTENSION_TIME then now + AUCTION_EXTENSION_TIME else a.endTime },
      rfl, ?_, rfl, ?_⟩
    · dsimp only
      rw [upd_same]
    · dsimp only
      exact hlow

/-- C10 witness: on the concrete fresh auction with starting bid 50, a
first bid of just 1 is accepted and becomes the highest bid. -/
theorem C10_starting_bid_not_enforced_witness :
    ∃ s' a', placeBid sAuc 4 10 1 id57 = .ok s' ∧
      s'.auctions id57 = some a' ∧ a'.highestBid = 1 ∧
      a'.highestBid < wAuction.startingBid :=
  C10_starting_bid_not_enforced rfl rfl rfl rfl rfl (by decide) (by decide) (by decide)

end NFTMarketplace

namespace NFTMarketplace

/-- C9 counterexample: not every mutating entry point is reentrancy-guarded.
During the seller's `withdrawProceeds` (lock held, ledger already zeroed and
98 moved to the recipient), the recipient reentrantly calls the owner-only
`withdrawFees`, which has NO `nonReentrant` modifier: the nested call
SUCCEEDS and sweeps the remaining 2 of fees to the owner while the outer
call is still in flight, instead of failing with `ReentrantCall`. -/
theorem C9_counterexample_unguarded_admin_reentry :
    okProceeds reentrantSweep 2 = some 0 ∧
    okPaidOut reentrantSweep 2 = some 98 ∧
    okPaidOut reentrantSweep 10 = some 2 ∧
    okBalance reentrantSweep = some 0 :=
  ⟨rfl, rfl, rfl, rfl⟩

/-- C9 (amended): the seven `nonReentrant` entry points (`listItem`,
`cancelListing`, `buyNow`, `createAuction`, `placeBid`, `endAuction`,
`withdrawProceeds`) all revert when invoked with the execution lock held —
with `ReentrantCall` whenever the pause flag is clear (the `whenNotPaused`
modifier is checked first) and unconditionally for `withdrawProceeds` — so
reentrant attempts through them change no state and leave the outer call to
complete with exactly its normal effect, as witnessed by the instrumented
`buyNowAdv`/`withdrawProceedsAdv` agreeing with the plain functions for
every adversary made of guarded calls.  The four owner-only entry points
(`setMarketplaceFee`, `pause`, `unpause`, `withdrawFees`) carry no such
guard. -/
theorem C9_reentrancy_guarded {s : MState} (hk : s.locked = true) :
    (∀ op, guardedOp op = true → ∃ e, step op s = .error e) ∧
    (s.paused = false → ∀ op, guardedOp op = true → step op s = .error .ReentrantCall) ∧
    (∀ sender r, withdrawProceeds s sender r = .error .ReentrantCall) ∧
    (∀ adv sender v lid, (∀ op ∈ adv, guardedOp op = true) →
      ∀ s1 : MState, buyNowAdv adv s1 sender v lid = buyNow s1 sender v lid) ∧
    (∀ adv sender, (∀ op ∈ adv, guardedOp op = true) →
      ∀ s1 : MState, withdrawProceedsAdv adv s1 sender = withdrawProceeds s1 sender true) := by
  refine ⟨step_locked_fails hk, ?_, ?_, ?_, ?_⟩
  · intro hp op hg
    cases op
    all_goals simp only [guardedOp] at hg
    all_goals try exact Bool.noConfusion hg
    all_goals simp only [step]
    · simp [listItem, hp, hk]
    · simp [cancelListing, hp, hk]
    · simp [buyNow, hp, hk]
    · simp [createAuction, hp, hk]
    · simp [placeBid, hp, hk]
    · simp [endAuction, hp, hk]
    · simp [withdrawProceeds, hk]
  · intro sender r
    simp [withdrawProceeds, hk]
  · intro adv sender v lid hadv s1
    exact buyNowAdv_eq hadv s1 sender v lid
  · intro adv sender hadv s1
    exact withdrawProceedsAdv_eq hadv s1 sender

/-- C9 witness: with the lock held on the concrete genesis state a nested
`withdrawProceeds` reverts `ReentrantCall`, and a buyer who attempts a
nested `placeBid` during the Scenario A purchase changes nothing about its
outcome. -/
theorem C9_reentrancy_guarded_witness :
    step (Op.withdrawProceedsOp 2 true) sLocked = .error .ReentrantCall ∧
    buyNowAdv [Op.placeBidOp 7 1 100 id57] sListed 3 100 id57 =
      buyNow sListed 3 100 id57 := by
  have T := C9_reentrancy_guarded (show sLocked.locked = true from rfl)
  refine ⟨T.2.1 rfl (Op.withdrawProceedsOp 2 true) rfl, ?_⟩
  refine T.2.2.2.1 [Op.placeBidOp 7 1 100 id57] 3 100 id57 ?_ sListed
  intro op hop
  rw [List.mem_singleton] at hop
  subst hop
  rfl

/-- C6: cross-registry exclusivity — in every reachable state there is at
most one active listing per asset reference, at most one active auction per
asset reference, and never an active listing and an active auction for the
same asset; moreover, while an active listing (resp. auction) exists for an
asset, any attempt to create a new listing or auction for that asset that
reaches the exclusivity check (valid price, not paused, lock free) reverts
`NFTAlreadyListed` (resp. `NFTAlreadyAuctioned`) — the two errors forming
the `AssetAlreadyInSale` category — and a revert returns no state. -/
theorem C6_exclusivity {s : MState} (hs : Reachable s) :
    (∀ id1 id2 l1 l2, s.listings id1 = some l1 → l1.isActive = true →
      s.listings id2 = some l2 → l2.isActive = true →
      l1.nftContract = l2.nftContract → l1.tokenId = l2.tokenId → id1 = id2) ∧
    (∀ id1 id2 a1 a2, s.auctions id1 = some a1 → a1.isActive = true →
      s.auctions id2 = some a2 → a2.isActive = true →
      a1.nftContract = a2.nftContract → a1.tokenId = a2.tokenId → id1 = id2) ∧
    (∀ lid aid l a, s.listings lid = some l → l.isActive = true →
      s.auctions aid = some a → a.isActive = true →
      ¬(l.nftContract = a.nftContract ∧ l.tokenId = a.tokenId)) ∧
    (∀ lid l, s.listings lid = some l → l.isActive = true →
      ∀ sender now price, s.paused = false → s.locked = false → price ≠ 0 →
        listItem s sender now l.nftContract l.tokenId price = .error .NFTAlreadyListed ∧
        createAuction s sender now l.nftContract l.tokenId price 3600 = .error .NFTAlreadyListed) ∧
    (∀ aid a, s.auctions aid = some a → a.isActive = true →
      ∀ sender now price, s.paused = false → s.locked = false → price ≠ 0 →
        listItem s sender now a.nftContract a.tokenId price = .error .NFTAlreadyAuctioned ∧
        createAuction s sender now a.nftContract a.tokenId price 3600 = .error .NFTAlreadyAuctioned) := by
  obtain ⟨inv1, inv2, inv3⟩ := exclInv_reachable hs
  refine ⟨?_, ?_, ?_, ?_, ?_⟩
  · intro id1 id2 l1 l2 h1 ha1 h2 ha2 hn ht
    have e1 := inv1 id1 l1 h1 ha1
    have e2 := inv1 id2 l2 h2 ha2
    rw [hn, ht, e2] at e1
    injection e1 with e1
    exact e1.symm
  · intro id1 id2 a1 a2 h1 ha1 h2 ha2 hn ht
    have e1 := inv2 id1 a1 h1 ha1
    have e2 := inv2 id2 a2 h2 ha2
    rw [hn, ht, e2] at e1
    injection e1 with e1
    exact e1.symm
  · intro lid aid l a hl hla ha haa hasset
    have e1 := inv1 lid l hl hla
    have e2 := inv2 aid a ha haa
    rcases inv3 l.nftContract l.tokenId with hn | hn
    · rw [e1] at hn
      exact Option.noConfusion hn
    · rw [hasset.1, hasset.2, e2] at hn
      exact Option.noConfusion hn
  · intro lid l hl hla sender now price hp hk hpr
    have e1 := inv1 lid l hl hla
    constructor
    · simp [listItem, hp, hk, hpr, e1]
    · simp [createAuction, hp, hk, hpr, e1, MIN_AUCTION_DURATION, MAX_AUCTION_DURATION]
  · intro aid a ha haa sender now price hp hk hpr
    have e2 := inv2 aid a ha haa
    have e0 : s.nftToListing a.nftContract a.tokenId = none := by
      rcases inv3 a.nftContract a.tokenId with hn | hn
      · exact hn
      · rw [e2] at hn
        exact Option.noConfusion hn
    constructor
    · simp [listItem, hp, hk, hpr, e0, e2]
    · simp [createAuction, hp, hk, hpr, e0, e2, MIN_AUCTION_DURATION, MAX_AUCTION_DURATION]

/-- C6 witness: the reachable state holding the active Scenario A listing
of token (5, 7) rejects both a second listing and an auction for the same
token with `NFTAlreadyListed`. -/
theorem C6_exclusivity_witness :
    listItem sListed 9 99 5 7 55 = .error .NFTAlreadyListed ∧
    createAuction sListed 9 99 5 7 55 3600 = .error .NFTAlreadyListed := by
  have hr : Reachable sListed :=
    Reachable.next s0 (Op.listItemOp 2 0 5 7 100) sListed
      (Reachable.init 10 owners0 250 (by decide)) rfl
  exact (C6_exclusivity hr).2.2.2.1 id57 ⟨5, 7, 2, 100, true, 0⟩ rfl rfl 9 99 55 rfl rfl
    (by decide)

end NFTMarketplace
